import Mathlib

/-!
# Verification of the club-stats activity pipeline (`src/main.py`)

Shallow embedding of the three core components of `main.py`:

* the paginated activity fetcher `load_items` (lines 43-103), with its
  per-record day-coverage stopping rule;
* the daily aggregator inside `plot_items` (lines 130-147): day-bucketed
  XP totals and the trailing average with its include/exclude-newest policy;
* the inactivity reporter `write_inactivity_report` (lines 164-193).

Modelling conventions:

* Python strings are `String`; character-level operations go through `.data`.
* Python `sorted` on strings compares code points lexicographically; this is
  embedded as the executable relation `strRel` below.
* Fallible Python code (uncaught `KeyError` / `IndexError` / `ValueError` /
  `ZeroDivisionError` exceptions) is embedded with `Option` / `Except` /
  explicit outcome types.
* The remote endpoint is a function from the (effective) pagination token to
  one parsed page; the unbounded `while` loop is embedded with explicit fuel,
  where exhausting every fuel bound models divergence.
* `num_days` is an `argparse` int (default 29); it is modelled as `Nat`.
* The float average is modelled with exact rationals `ℚ`; the only average
  values the claims mention (150, 200) are exactly representable floats.
-/

/-! ## Code-point ordering on strings (Python `sorted` / `<` on `str`) -/

/-- Lexicographic comparison of char lists by code point, as Python compares
strings. Structural, so that it evaluates inside the kernel. -/
def lexLe : List Char → List Char → Bool
  | [], _ => true
  | _ :: _, [] => false
  | a :: as, b :: bs => if a = b then lexLe as bs else decide (a.toNat < b.toNat)

/-- `a <= b` on Python strings (code-point lexicographic). -/
def strLe (a b : String) : Bool := lexLe a.data b.data

/-- `strLe` as a relation, for use with `List.insertionSort`. -/
def strRel (a b : String) : Prop := strLe a b = true

instance : DecidableRel strRel := fun a b => instDecidableEqBool (strLe a b) true

/-- Python's `sorted` on a list of strings. -/
def sortedStrings (l : List String) : List String := l.insertionSort strRel

/-! ## Data model -/

/-- One activity record (`activity_item.py` fields used by `main.py`):
ISO-8601 UTC timestamp, XP point value, user identifier. -/
structure ActivityItem where
  recordedAt : String
  xpReward : Nat
  userId : String
deriving DecidableEq, Repr

/-- One roster member (`member.py` fields used by `main.py`). -/
structure Member where
  userId : String
  nick : String
deriving DecidableEq, Repr

/-- `main.py` line 20. -/
def FILTER_OUT_WEEKLIES : Bool := true

/-- `main.py` line 19 (milliseconds; timing is not otherwise modelled). -/
def THROTTLE_TIME_MS : Nat := 10

/-! ## Date truncation (`recordedAt.split('T')[0]`, lines 90 and 172) -/

/-- Python `s.split('T')[0]`: the longest prefix of `s` not containing `'T'`. -/
def truncDate (s : String) : String := String.mk (s.data.takeWhile (fun c => c != 'T'))

/-- The calendar-date string of a record, as the fetcher and reporter derive it. -/
def recordDate (a : ActivityItem) : String := truncDate a.recordedAt

/-! ## Activity fetcher (`load_items`, lines 43-103) -/

/-- Python `set.add` on the modelled `days_set` (membership-checked list). -/
def setInsert (d : String) (s : List String) : List String :=
  if d ∈ s then s else d :: s

/-- Result of scanning one page's records (the `for` loop, lines 84-97):
either the scan ran through the page updating the state, or the stopping
rule fired mid-page with an early `return all_activities`. -/
inductive PageScan where
  | ran (daysSet : List String) (acc : List ActivityItem)
  | early (acc : List ActivityItem)
deriving DecidableEq, Repr

/-- The per-record loop of lines 84-97: skip weeklies, derive the date,
stop early when the day set is full and the date is new, otherwise record
the date and append the activity. -/
def processPage (numDays : Nat) :
    List String → List ActivityItem → List ActivityItem → PageScan
  | daysSet, acc, [] => PageScan.ran daysSet acc
  | daysSet, acc, a :: rest =>
    if FILTER_OUT_WEEKLIES && (a.xpReward == 1000) then
      processPage numDays daysSet acc rest
    else
      if numDays ≤ daysSet.length ∧ truncDate a.recordedAt ∉ daysSet then
        PageScan.early acc
      else
        processPage numDays (setInsert (truncDate a.recordedAt) daysSet) (acc ++ [a]) rest

/-- One parsed JSON page as `load_items` consumes it. `items = none` models a
response whose dict lacks the `'items'` key (a `KeyError` at line 75), and
`paginationToken = none` one lacking `'paginationToken'` (a `KeyError` at
line 78); `paginationToken = some none` models an explicit `null` token. -/
structure PageResp where
  items : Option (List ActivityItem)
  paginationToken : Option (Option String)

/-- Result of a fetch run: a normal return of the record list, a propagated
exception, or exhaustion of the fuel bound (the loop still running). -/
inductive FetchOutcome where
  | ok (items : List ActivityItem)
  | fatal (msg : String)
  | outOfFuel
deriving DecidableEq, Repr

/-- Line 65: `if pagination_token:` — the token is appended to the URL only
when truthy, so `None` and `""` both yield a token-less first-page request. -/
def effectiveToken (tok : Option String) : Option String :=
  match tok with
  | some t => if t = "" then none else some t
  | none => none

/-- The `while len(days_set) <= num_days` loop of lines 61-103, with explicit
fuel. Each iteration requests one page (a function of the effective token),
propagates `KeyError` on a missing `'items'` or `'paginationToken'` field and
`IndexError` on an empty item list (`activities[-1]` at line 81), scans the
page with `processPage`, and either returns early or continues with the new
token. When the `while` condition fails the accumulated list is returned
(line 103). -/
def loadItemsLoop (numDays : Nat) (remote : Option String → PageResp) :
    Nat → List String → List ActivityItem → Option String → FetchOutcome
  | 0, _, _, _ => FetchOutcome.outOfFuel
  | fuel + 1, daysSet, acc, tok =>
    if daysSet.length ≤ numDays then
      match (remote (effectiveToken tok)).items with
      | none => FetchOutcome.fatal "KeyError: items"
      | some page =>
        match (remote (effectiveToken tok)).paginationToken with
        | none => FetchOutcome.fatal "KeyError: paginationToken"
        | some newTok =>
          match page with
          | [] => FetchOutcome.fatal "IndexError: list index out of range"
          | _ :: _ =>
            match processPage numDays daysSet acc page with
            | PageScan.early res => FetchOutcome.ok res
            | PageScan.ran ds2 acc2 => loadItemsLoop numDays remote fuel ds2 acc2 newTok
    else FetchOutcome.ok acc

/-- `load_items(num_days, club_id)`: the loop started from an empty day set,
empty output and no pagination token (lines 57-59). -/
def load_items (numDays : Nat) (remote : Option String → PageResp) (fuel : Nat) :
    FetchOutcome :=
  loadItemsLoop numDays remote fuel [] [] none

/-- The body of one loop iteration (everything under the `while` check),
parameterised by the continuation for the next iteration. Used to state that
the outer `while` bound never terminates the loop: at every reachable state
the loop proceeds into this body. -/
def loopBody (numDays : Nat) (remote : Option String → PageResp)
    (daysSet : List String) (acc : List ActivityItem) (tok : Option String)
    (next : List String → List ActivityItem → Option String → FetchOutcome) :
    FetchOutcome :=
  match (remote (effectiveToken tok)).items with
  | none => FetchOutcome.fatal "KeyError: items"
  | some page =>
    match (remote (effectiveToken tok)).paginationToken with
    | none => FetchOutcome.fatal "KeyError: paginationToken"
    | some newTok =>
      match page with
      | [] => FetchOutcome.fatal "IndexError: list index out of range"
      | _ :: _ =>
        match processPage numDays daysSet acc page with
        | PageScan.early res => FetchOutcome.ok res
        | PageScan.ran ds2 acc2 => next ds2 acc2 newTok

/-- Whether a record survives the weekly category filter of lines 86-87. -/
def isWeekly (a : ActivityItem) : Bool := FILTER_OUT_WEEKLIES && (a.xpReward == 1000)

/-- The qualifying (non-filtered) records of a list, in order. -/
def qualifying (l : List ActivityItem) : List ActivityItem :=
  l.filter (fun a => !(isWeekly a))

/-- The concatenated record stream of the pages a fetch run actually consumes,
following the same control flow as `loadItemsLoop`. -/
def fetchedStream (numDays : Nat) (remote : Option String → PageResp) :
    Nat → List String → List ActivityItem → Option String → List ActivityItem
  | 0, _, _, _ => []
  | fuel + 1, daysSet, acc, tok =>
    if daysSet.length ≤ numDays then
      match (remote (effectiveToken tok)).items with
      | none => []
      | some page =>
        match (remote (effectiveToken tok)).paginationToken with
        | none => []
        | some newTok =>
          match page with
          | [] => []
          | _ :: _ =>
            match processPage numDays daysSet acc page with
            | PageScan.early _ => page
            | PageScan.ran ds2 acc2 =>
                page ++ fetchedStream numDays remote fuel ds2 acc2 newTok
    else []

/-- Loop invariant of `load_items`: `days_set` holds no duplicates, is
exactly the set of dates of the accumulated records, and never exceeds
`num_days` in size. -/
def daysInv (numDays : Nat) (daysSet : List String) (acc : List ActivityItem) : Prop :=
  daysSet.Nodup ∧ (∀ d, d ∈ daysSet ↔ d ∈ acc.map recordDate) ∧ daysSet.length ≤ numDays

/-! ## Daily aggregator (`plot_items`, lines 130-161)

The aggregation uses `datetime.fromisoformat(item.recordedAt).date()`
(line 134). `datetime.fromisoformat` is Python standard-library code, not
part of this repository, so its date component is modelled from the spec. -/

/-- Whether ten characters have the dashed ISO calendar-date shape
`YYYY-MM-DD` (digits with dashes at positions 4 and 7). -/
def isIsoDateChars : List Char → Bool
  | [y1, y2, y3, y4, s1, m1, m2, s2, d1, d2] =>
    y1.isDigit && y2.isDigit && y3.isDigit && y4.isDigit && (s1 == '-') &&
    m1.isDigit && m2.isDigit && (s2 == '-') && d1.isDigit && d2.isDigit
  | _ => false

/-- Modelled from the spec: the calendar date that Python's
`datetime.fromisoformat(s).date()` yields, rendered back as its `YYYY-MM-DD`
ISO string. The repository does not contain `datetime`; per the spec's data
model, `recordedAt` is an ISO-8601 date-and-time string whose date component
is the dashed `YYYY-MM-DD` part before the `'T'` separator (a date-only
string is also accepted, as `fromisoformat` accepts it). Validation of the
time-of-day part and of month/day ranges is elided: the spec's invariant
guarantees a valid UTC-qualified timestamp. An input of any other shape is
`none`, modelling the `ValueError` that `fromisoformat` raises. -/
def fromisoformatDate (s : String) : Option String :=
  let l := s.data
  if isIsoDateChars (l.take 10) then
    match l.drop 10 with
    | [] => some (String.mk (l.take 10))
    | 'T' :: _ => some (String.mk (l.take 10))
    | _ => none
  else none

/-- Map a fallible function over a list, failing on the first failure, as a
Python `for` loop raising an exception does. -/
def optionMapList (f : α → Option β) : List α → Option (List β)
  | [] => some []
  | a :: l =>
    match f a, optionMapList f l with
    | some b, some bs => some (b :: bs)
    | _, _ => none

/-- The `(date, xpReward)` pair of every record, or `none` when some record's
timestamp fails to parse (the run aborts with `ValueError`). -/
def datedPairs (items : List ActivityItem) : Option (List (String × Nat)) :=
  optionMapList (fun i => (fromisoformatDate i.recordedAt).map (fun d => (d, i.xpReward))) items

/-- Total XP of the pairs carrying date `d`: the `xp_by_date[date] += xpReward`
accumulation of lines 132-135, read off per key. -/
def totalFor (ps : List (String × Nat)) (d : String) : Nat :=
  ((ps.filter (fun p => decide (p.1 = d))).map (fun p => p.2)).sum

/-- Lines 131-139 of `plot_items`: group records by `fromisoformat` date, sum
XP per day, and list the `(date, total)` buckets in ascending date order. -/
def aggregate (items : List ActivityItem) : Except String (List (String × Nat)) :=
  match datedPairs items with
  | none => Except.error "ValueError: Invalid isoformat string"
  | some ps =>
    let dates := sortedStrings (ps.map (fun p => p.1)).dedup
    Except.ok (dates.map (fun d => (d, totalFor ps d)))

/-- Lines 141-144: the bucket totals selected for the average — all of them,
or all but the chronologically last (`xp_sums[:-1]`). -/
def xpSumsForAvg (xpSums : List Nat) (includeToday : Bool) : List Nat :=
  if includeToday then xpSums else xpSums.dropLast

/-- Line 147: `avg_xp = sum(xp_sums_for_avg) / len(xp_sums_for_avg)`. The
division is unguarded in the source; in Python `0 / 0` raises
`ZeroDivisionError`, modelled as the error case. -/
def avgXp (xpSums : List Nat) (includeToday : Bool) : Except String ℚ :=
  let sel := xpSumsForAvg xpSums includeToday
  if sel.length = 0 then Except.error "ZeroDivisionError: division by zero"
  else Except.ok ((sel.sum : ℚ) / (sel.length : ℚ))

/-- The aggregation core of `plot_items` (lines 130-147): the day buckets and
the average handed to the chart renderer, or the propagated exception. -/
def plot_items (items : List ActivityItem) (includeToday : Bool) :
    Except String (List (String × Nat) × ℚ) :=
  match aggregate items with
  | Except.error e => Except.error e
  | Except.ok buckets =>
    match avgXp (buckets.map (fun p => p.2)) includeToday with
    | Except.error e => Except.error e
    | Except.ok avg => Except.ok (buckets, avg)

/-- A `(date, total)` bucket re-read as a single synthetic record dated on
that day with that point value (for the idempotence property). -/
def syntheticItems (buckets : List (String × Nat)) : List ActivityItem :=
  buckets.map (fun p => { recordedAt := p.1, xpReward := p.2, userId := "" })

/-! ## Inactivity reporter (`write_inactivity_report`, lines 164-193) -/

/-- Line 166, `user_id_to_nick = {m.userId: m.nick for m in members}`, read at
a key: a Python dict comprehension keeps the last binding of a duplicate key. -/
def nickLookup (members : List Member) (uid : String) : Option String :=
  (members.reverse.find? (fun m => m.userId == uid)).map (fun m => m.nick)

/-- Line 167: the set of all roster user ids (dict keys, so deduplicated). -/
def allUserIds (members : List Member) : List String :=
  (members.map (fun m => m.userId)).dedup

/-- Lines 170-173, read at one date: the user ids with at least one record
whose truncated date is `d`. -/
def activeOn (items : List ActivityItem) (d : String) : List String :=
  (items.filter (fun i => recordDate i == d)).map (fun i => i.userId)

/-- Line 177, `sorted(active_by_date.keys())`: the distinct dates present in
the records, ascending. -/
def reportDates (items : List ActivityItem) : List String :=
  sortedStrings (items.map recordDate).dedup

/-- Line 178: `all_user_ids - active_by_date[date]`, the roster ids with no
record on date `d`. -/
def inactiveIdsOn (items : List ActivityItem) (members : List Member) (d : String) :
    List String :=
  (allUserIds members).filter (fun uid => !((activeOn items d).contains uid))

/-- One report block: a sorted list of absentee labels, or the explicit
`"(No inactive members)"` marker of line 191. -/
inductive ReportBlock where
  | absentees (labels : List String)
  | noneInactive
deriving DecidableEq, Repr

/-- Lines 178-191 for one date: resolve each inactive id through the nick
lookup falling back to the raw id, sort the labels, and emit either the
label list or the none-inactive marker. -/
def blockFor (items : List ActivityItem) (members : List Member) (d : String) :
    ReportBlock :=
  let labels := sortedStrings
    ((inactiveIdsOn items members d).map (fun uid => (nickLookup members uid).getD uid))
  match labels with
  | [] => ReportBlock.noneInactive
  | _ :: _ => ReportBlock.absentees labels

/-- The whole report, as the association of each present date (ascending) to
its block — the observable content of the text file written by lines 176-193. -/
def write_inactivity_report (items : List ActivityItem) (members : List Member) :
    List (String × ReportBlock) :=
  (reportDates items).map (fun d => (d, blockFor items members d))

/-! ## The spec's timestamp invariant (data model, section 3) -/

/-- The spec's invariant on `recordedAt`: an ISO-8601 date-and-time string,
`YYYY-MM-DD`, then the `'T'` separator, then a time-of-day that is
UTC-qualified (ending in `'Z'` or in the `+00:00` offset). -/
def isUtcIsoTimestamp (s : String) : Prop :=
  ∃ d r, s.data = d ++ 'T' :: r ∧ isIsoDateChars d = true ∧
    ((∃ r0, r = r0 ++ ['Z']) ∨ (∃ r0, r = r0 ++ "+00:00".data))

/-! ## Concrete inputs used to instantiate the theorems -/

def exNormal : ActivityItem :=
  { recordedAt := "2024-01-01T10:00:00+00:00", xpReward := 100, userId := "u1" }

def exWeekly : ActivityItem :=
  { recordedAt := "2024-01-01T09:00:00+00:00", xpReward := 1000, userId := "u2" }

def exNext : ActivityItem :=
  { recordedAt := "2023-12-31T23:00:00+00:00", xpReward := 200, userId := "u3" }

/-- A remote whose (only) page holds a weekly record, a qualifying record, and
a qualifying record of an older day. -/
def exRemote : Option String → PageResp :=
  fun _ => { items := some [exWeekly, exNormal, exNext], paginationToken := some (some "t2") }

def w1ItemA : ActivityItem :=
  { recordedAt := "2024-01-02T08:00:00+00:00", xpReward := 150, userId := "u1" }

def w1ItemB : ActivityItem :=
  { recordedAt := "2024-01-01T08:00:00+00:00", xpReward := 100, userId := "u2" }

def w1Remote : Option String → PageResp :=
  fun _ => { items := some [w1ItemB], paginationToken := some (some "t9") }

def c3Item : ActivityItem :=
  { recordedAt := "2024-01-01T00:00:00+00:00", xpReward := 100, userId := "u1" }

/-- A club whose whole history spans a single calendar day: the remote always
serves the same one-record page, with a `null` pagination token (so the next
request starts over from the first page), exactly as the real endpoint does
once history is exhausted. -/
def c3Remote : Option String → PageResp :=
  fun _ => { items := some [c3Item], paginationToken := some none }

def c7Items : List ActivityItem :=
  [ { recordedAt := "2024-01-01T10:00:00+00:00", xpReward := 100, userId := "u1" },
    { recordedAt := "2024-01-02T10:00:00+00:00", xpReward := 200, userId := "u1" },
    { recordedAt := "2024-01-03T10:00:00+00:00", xpReward := 300, userId := "u1" } ]

def c7Buckets : List (String × Nat) :=
  [("2024-01-01", 100), ("2024-01-02", 200), ("2024-01-03", 300)]

def c5OneItem : List ActivityItem :=
  [ { recordedAt := "2024-01-05T10:00:00+00:00", xpReward := 40, userId := "u1" } ]

def c8Members : List Member :=
  [ { userId := "A", nick := "Alice" }, { userId := "B", nick := "Bob" } ]

def c8Items : List ActivityItem :=
  [ { recordedAt := "2024-01-01T09:00:00+00:00", xpReward := 50, userId := "A" },
    { recordedAt := "2024-01-02T09:00:00+00:00", xpReward := 60, userId := "A" },
    { recordedAt := "2024-01-02T10:00:00+00:00", xpReward := 70, userId := "B" } ]

/-! ## Helper lemmas: the string order -/

theorem lexLe_total (a b : List Char) : lexLe a b = true ∨ lexLe b a = true := by
  induction a generalizing b with
  | nil => left; rfl
  | cons x xs ih =>
    cases b with
    | nil => right; rfl
    | cons y ys =>
      by_cases h : x = y
      · subst h
        simpa [lexLe] using ih ys
      · have h2 : y ≠ x := fun hc => h hc.symm
        rcases Nat.lt_or_ge x.toNat y.toNat with h3 | h3
        · left
          simp [lexLe, h, h3]
        · have h4 : y.toNat < x.toNat := by
            rcases Nat.lt_or_ge y.toNat x.toNat with h5 | h5
            · exact h5
            · exfalso
              have hvv : x.toNat = y.toNat := Nat.le_antisymm h5 h3
              exact h (Char.eq_of_val_eq (UInt32.eq_of_toBitVec_eq (BitVec.eq_of_toNat_eq hvv)))
          right
          simp [lexLe, h2, h4]

theorem lexLe_trans (a b c : List Char) (h1 : lexLe a b = true) (h2 : lexLe b c = true) :
    lexLe a c = true := by
  induction a generalizing b c with
  | nil => rfl
  | cons x xs ih =>
    cases b with
    | nil => simp [lexLe] at h1
    | cons y ys =>
      cases c with
      | nil => simp [lexLe] at h2
      | cons z zs =>
        by_cases hxy : x = y
        · subst hxy
          by_cases hxz : x = z
          · subst hxz
            simp only [lexLe, if_pos rfl] at h1 h2 ⊢
            exact ih ys zs h1 h2
          · simp only [lexLe, if_pos rfl] at h1
            simp only [lexLe, if_neg hxz] at h2 ⊢
            exact h2
        · simp only [lexLe, if_neg hxy] at h1
          by_cases hyz : y = z
          · subst hyz
            simp only [lexLe, if_neg hxy] at *
            exact h1
          · simp only [lexLe, if_neg hyz] at h2
            have hxz : x.toNat < z.toNat :=
              Nat.lt_trans (of_decide_eq_true h1) (of_decide_eq_true h2)
            have hne : x ≠ z := by
              intro hc
              subst hc
              exact Nat.lt_irrefl _ hxz
            simp [lexLe, hne, hxz]

instance : IsTotal String strRel := ⟨fun a b => lexLe_total a.data b.data⟩

instance : IsTrans String strRel := ⟨fun a b c => lexLe_trans a.data b.data c.data⟩

/-! ## Helper lemmas: the day set -/

theorem setInsert_of_mem {d : String} {s : List String} (h : d ∈ s) :
    setInsert d s = s := if_pos h

theorem setInsert_nodup {d : String} {s : List String} (h : s.Nodup) :
    (setInsert d s).Nodup := by
  unfold setInsert
  split_ifs with hm
  · exact h
  · exact List.nodup_cons.mpr ⟨hm, h⟩

theorem mem_setInsert {x d : String} {s : List String} :
    x ∈ setInsert d s ↔ x = d ∨ x ∈ s := by
  unfold setInsert
  split_ifs with hm
  · constructor
    · exact Or.inr
    · rintro (rfl | h)
      exacts [hm, h]
  · simp [List.mem_cons]

theorem setInsert_length_of_not_mem {d : String} {s : List String} (h : d ∉ s) :
    (setInsert d s).length = s.length + 1 := by
  unfold setInsert
  rw [if_neg h]
  rfl

theorem length_eq_of_nodup_mem_iff {l1 l2 : List String} (h1 : l1.Nodup) (h2 : l2.Nodup)
    (h : ∀ a, a ∈ l1 ↔ a ∈ l2) : l1.length = l2.length :=
  ((List.perm_ext_iff_of_nodup h1 h2).2 h).length_eq

theorem daysInv_initial (numDays : Nat) : daysInv numDays [] [] :=
  ⟨List.nodup_nil, by simp, Nat.zero_le _⟩

theorem daysInv_step {numDays : Nat} {ds : List String} {acc : List ActivityItem}
    {a : ActivityItem} (hinv : daysInv numDays ds acc)
    (hno : ¬(numDays ≤ ds.length ∧ truncDate a.recordedAt ∉ ds)) :
    daysInv numDays (setInsert (truncDate a.recordedAt) ds) (acc ++ [a]) := by
  obtain ⟨hnd, hmem, hlen⟩ := hinv
  refine ⟨setInsert_nodup hnd, ?_, ?_⟩
  · intro x
    rw [mem_setInsert, hmem x]
    simp only [List.map_append, List.mem_append, List.map_cons, List.map_nil,
      List.mem_cons, List.not_mem_nil, or_false]
    have : recordDate a = truncDate a.recordedAt := rfl
    rw [this]
    tauto
  · by_cases hm : truncDate a.recordedAt ∈ ds
    · rw [setInsert_of_mem hm]
      exact hlen
    · have hlt : ¬ numDays ≤ ds.length := fun hle => hno ⟨hle, hm⟩
      rw [setInsert_length_of_not_mem hm]
      omega

/-! ## Helper lemmas: page scans -/

theorem qualifying_append (l1 l2 : List ActivityItem) :
    qualifying (l1 ++ l2) = qualifying l1 ++ qualifying l2 := by
  simp [qualifying, List.filter_append]

theorem qualifying_cons_of_weekly {a : ActivityItem} {rest : List ActivityItem}
    (hw : (FILTER_OUT_WEEKLIES && (a.xpReward == 1000)) = true) :
    qualifying (a :: rest) = qualifying rest := by
  have h' : isWeekly a = true := hw
  simp [qualifying, List.filter_cons, h']

theorem qualifying_cons_of_not_weekly {a : ActivityItem} {rest : List ActivityItem}
    (hw : ¬ (FILTER_OUT_WEEKLIES && (a.xpReward == 1000)) = true) :
    qualifying (a :: rest) = a :: qualifying rest := by
  simp only [qualifying, List.filter_cons, isWeekly]
  rw [Bool.eq_false_iff.mpr hw]
  simp

theorem processPage_ran_spec (numDays : Nat) (l : List ActivityItem) :
    ∀ (ds ds2 : List String) (acc acc2 : List ActivityItem),
      daysInv numDays ds acc →
      processPage numDays ds acc l = PageScan.ran ds2 acc2 →
      daysInv numDays ds2 acc2 ∧ acc2 = acc ++ qualifying l := by
  induction l with
  | nil =>
    intro ds ds2 acc acc2 hinv hp
    simp only [processPage] at hp
    cases hp
    exact ⟨hinv, by simp [qualifying]⟩
  | cons a rest ih =>
    intro ds ds2 acc acc2 hinv hp
    simp only [processPage] at hp
    by_cases hw : (FILTER_OUT_WEEKLIES && (a.xpReward == 1000)) = true
    · rw [if_pos hw] at hp
      rw [qualifying_cons_of_weekly hw]
      exact ih ds ds2 acc acc2 hinv hp
    · rw [if_neg hw] at hp
      by_cases hs : numDays ≤ ds.length ∧ truncDate a.recordedAt ∉ ds
      · rw [if_pos hs] at hp
        cases hp
      · rw [if_neg hs] at hp
        have h2 := ih _ _ _ _ (daysInv_step hinv hs) hp
        rw [qualifying_cons_of_not_weekly hw]
        exact ⟨h2.1, by rw [h2.2]; simp⟩

theorem processPage_early_spec (numDays : Nat) (l : List ActivityItem) :
    ∀ (ds : List String) (acc res : List ActivityItem),
      daysInv numDays ds acc →
      processPage numDays ds acc l = PageScan.early res →
      ∃ pre a post,
        qualifying l = pre ++ a :: post ∧
        res = acc ++ pre ∧
        (res.map recordDate).dedup.length = numDays ∧
        recordDate a ∉ res.map recordDate := by
  induction l with
  | nil =>
    intro ds acc res hinv hp
    simp only [processPage] at hp
    cases hp
  | cons a rest ih =>
    intro ds acc res hinv hp
    simp only [processPage] at hp
    by_cases hw : (FILTER_OUT_WEEKLIES && (a.xpReward == 1000)) = true
    · rw [if_pos hw] at hp
      rw [qualifying_cons_of_weekly hw]
      exact ih ds acc res hinv hp
    · rw [if_neg hw] at hp
      by_cases hs : numDays ≤ ds.length ∧ truncDate a.recordedAt ∉ ds
      · rw [if_pos hs] at hp
        cases hp
        obtain ⟨hnd, hmem, hlen⟩ := hinv
        refine ⟨[], a, qualifying rest,
          by rw [qualifying_cons_of_not_weekly hw]; rfl, by simp, ?_, ?_⟩
        · have hdl : ((acc.map recordDate).dedup).length = ds.length := by
            apply length_eq_of_nodup_mem_iff (List.nodup_dedup _) hnd
            intro x
            rw [List.mem_dedup]
            exact (hmem x).symm
          omega
        · intro hc
          exact hs.2 ((hmem _).mpr hc)
      · rw [if_neg hs] at hp
        obtain ⟨pre, b, post, hq, hres, hcnt, hfresh⟩ :=
          ih _ _ _ (daysInv_step hinv hs) hp
        refine ⟨a :: pre, b, post, ?_, ?_, hcnt, hfresh⟩
        · rw [qualifying_cons_of_not_weekly hw, hq]
          rfl
        · rw [hres]
          simp

/-! ## Helper lemmas: the fetch loop -/

theorem loadItemsLoop_ok_spec (numDays : Nat) (remote : Option String → PageResp) :
    ∀ (fuel : Nat) (ds : List String) (acc res : List ActivityItem) (tok : Option String),
      daysInv numDays ds acc →
      loadItemsLoop numDays remote fuel ds acc tok = FetchOutcome.ok res →
      ∃ pre a post,
        qualifying (fetchedStream numDays remote fuel ds acc tok) = pre ++ a :: post ∧
        res = acc ++ pre ∧
        (res.map recordDate).dedup.length = numDays ∧
        recordDate a ∉ res.map recordDate := by
  intro fuel
  induction fuel with
  | zero =>
    intro ds acc res tok _ hp
    simp only [loadItemsLoop] at hp
    cases hp
  | succ fuel ih =>
    intro ds acc res tok hinv hp
    have hlen : ds.length ≤ numDays := hinv.2.2
    simp only [loadItemsLoop] at hp
    rw [if_pos hlen] at hp
    rcases hri : (remote (effectiveToken tok)).items with _ | page
    · rw [hri] at hp
      simp at hp
    · rw [hri] at hp
      rcases hrt : (remote (effectiveToken tok)).paginationToken with _ | newTok
      · rw [hrt] at hp
        simp at hp
      · rw [hrt] at hp
        rcases page with _ | ⟨a0, prest⟩
        · simp at hp
        · simp only at hp
          have hstream : fetchedStream numDays remote (fuel + 1) ds acc tok =
              (match processPage numDays ds acc (a0 :: prest) with
                | PageScan.early _ => a0 :: prest
                | PageScan.ran ds2 acc2 =>
                    (a0 :: prest) ++ fetchedStream numDays remote fuel ds2 acc2 newTok) := by
            simp only [fetchedStream]
            rw [if_pos hlen, hri, hrt]
          rcases hpp : processPage numDays ds acc (a0 :: prest) with ⟨ds2, acc2⟩ | res'
          · rw [hpp] at hp
            simp only at hp
            have hstream2 : fetchedStream numDays remote (fuel + 1) ds acc tok =
                (a0 :: prest) ++ fetchedStream numDays remote fuel ds2 acc2 newTok := by
              rw [hstream, hpp]
            obtain ⟨hinv2, hacc2⟩ := processPage_ran_spec numDays _ _ _ _ _ hinv hpp
            obtain ⟨pre, b, post, hq, hres, hcnt, hfresh⟩ := ih _ _ _ _ hinv2 hp
            refine ⟨qualifying (a0 :: prest) ++ pre, b, post, ?_, ?_, hcnt, hfresh⟩
            · rw [hstream2, qualifying_append, hq]
              simp
            · rw [hres, hacc2]
              simp
          · rw [hpp] at hp
            simp only at hp
            cases hp
            have hstream2 : fetchedStream numDays remote (fuel + 1) ds acc tok =
                a0 :: prest := by
              rw [hstream, hpp]
            rw [hstream2]
            exact processPage_early_spec numDays _ _ _ _ hinv hpp

/-! ## Claims C1-C4: the activity fetcher -/

/-- Claim C1: while scanning a page's records in response order, a record that
reaches the stopping check (one the weekly filter does not skip) causes an
immediate return of the accumulated list — excluding that record and every
later one — exactly when the day set already has at least `numDays` distinct
dates and the record's date is not among them; otherwise its date is added to
the set and the record appended to the output. The early page scan propagates
as the immediate return value of the whole fetch loop. -/
theorem c1_stopping_rule (numDays : Nat) (daysSet : List String)
    (acc : List ActivityItem) (a : ActivityItem) (rest : List ActivityItem)
    (hq : a.xpReward ≠ 1000) :
    (numDays ≤ daysSet.length ∧ truncDate a.recordedAt ∉ daysSet →
      processPage numDays daysSet acc (a :: rest) = PageScan.early acc) ∧
    (¬(numDays ≤ daysSet.length ∧ truncDate a.recordedAt ∉ daysSet) →
      processPage numDays daysSet acc (a :: rest) =
        processPage numDays (setInsert (truncDate a.recordedAt) daysSet) (acc ++ [a]) rest) ∧
    (∀ (remote : Option String → PageResp) (fuel : Nat) (tok : Option String)
      (res : List ActivityItem) (page : List ActivityItem) (newTok : Option String),
      daysSet.length ≤ numDays →
      (remote (effectiveToken tok)).items = some page →
      (remote (effectiveToken tok)).paginationToken = some newTok →
      page ≠ [] →
      processPage numDays daysSet acc page = PageScan.early res →
      loadItemsLoop numDays remote (fuel + 1) daysSet acc tok = FetchOutcome.ok res) := by
  have hw : ¬ (FILTER_OUT_WEEKLIES && (a.xpReward == 1000)) = true := by
    simp [FILTER_OUT_WEEKLIES, hq]
  refine ⟨?_, ?_, ?_⟩
  · intro h
    simp only [processPage]
    rw [if_neg hw, if_pos h]
  · intro h
    simp only [processPage]
    rw [if_neg hw, if_neg h]
  · intro remote fuel tok res page newTok hlen hri hrt hne hpp
    simp only [loadItemsLoop]
    rw [if_pos hlen, hri, hrt]
    rcases page with _ | ⟨a0, prest⟩
    · exact absurd rfl hne
    · simp only
      rw [hpp]

/-- Witness for C1: with a one-day target, a full day set `{2024-01-02}` and a
record of the unseen day `2024-01-01`, the scan stops at once with the
previously accumulated record, and the fetch loop returns it. -/
theorem c1_stopping_rule_witness :
    processPage 1 ["2024-01-02"] [w1ItemA] [w1ItemB] = PageScan.early [w1ItemA] ∧
    loadItemsLoop 1 w1Remote (4 + 1) ["2024-01-02"] [w1ItemA] (some "t0") =
      FetchOutcome.ok [w1ItemA] :=
  ⟨(c1_stopping_rule 1 ["2024-01-02"] [w1ItemA] w1ItemB [] (by decide)).1 (by decide),
   (c1_stopping_rule 1 ["2024-01-02"] [w1ItemA] w1ItemB [] (by decide)).2.2
     w1Remote 4 (some "t0") [w1ItemA] [w1ItemB] (some "t9")
     (by decide) rfl rfl (by decide) (by decide)⟩

/-- Claim C2: a successful fetch run returns records spanning at most
`numDays` distinct calendar dates; the run can only return via the per-record
stopping rule, at the record where the `(numDays+1)`-th distinct qualifying
date first appears in the fetched stream, and no record from that point on is
returned; `days_set` never exceeds `numDays` entries (the stated invariant
holds initially and is preserved), so the outer `while` bound never
terminates the loop — at every reachable state the loop proceeds into its
body. -/
theorem c2_day_bound (numDays : Nat) (remote : Option String → PageResp) :
    (∀ (fuel : Nat) (res : List ActivityItem),
      load_items numDays remote fuel = FetchOutcome.ok res →
      (res.map recordDate).dedup.length ≤ numDays ∧
      ∃ pre a post,
        qualifying (fetchedStream numDays remote fuel [] [] none) = pre ++ a :: post ∧
        res = pre ∧
        (res.map recordDate).dedup.length = numDays ∧
        recordDate a ∉ res.map recordDate) ∧
    daysInv numDays [] [] ∧
    (∀ (l : List ActivityItem) (ds ds2 : List String) (acc acc2 : List ActivityItem),
      daysInv numDays ds acc →
      processPage numDays ds acc l = PageScan.ran ds2 acc2 →
      daysInv numDays ds2 acc2) ∧
    (∀ (fuel : Nat) (ds : List String) (acc : List ActivityItem) (tok : Option String),
      daysInv numDays ds acc →
      loadItemsLoop numDays remote (fuel + 1) ds acc tok =
        loopBody numDays remote ds acc tok (loadItemsLoop numDays remote fuel)) := by
  refine ⟨?_, daysInv_initial numDays, ?_, ?_⟩
  · intro fuel res h
    obtain ⟨pre, a, post, hq, hres, hcnt, hfresh⟩ :=
      loadItemsLoop_ok_spec numDays remote fuel [] [] res none (daysInv_initial _) h
    rw [List.nil_append] at hres
    exact ⟨le_of_eq hcnt, pre, a, post, hq, hres, hcnt, hfresh⟩
  · intro l ds ds2 acc acc2 hinv hp
    exact (processPage_ran_spec numDays l ds ds2 acc acc2 hinv hp).1
  · intro fuel ds acc tok hinv
    simp only [loadItemsLoop]
    rw [if_pos hinv.2.2]
    rfl

/-- Witness for C2: on a run that returns one record of `2024-01-01`, the
returned records span at most one distinct date; the loop at the initial
state proceeds into its body rather than exiting at the outer bound; and a
trivially completed page scan preserves the invariant. -/
theorem c2_day_bound_witness :
    (([exNormal].map recordDate).dedup.length ≤ 1) ∧
    loadItemsLoop 1 exRemote (2 + 1) [] [] none =
      loopBody 1 exRemote [] [] none (loadItemsLoop 1 exRemote 2) ∧
    daysInv 1 [] [] :=
  ⟨((c2_day_bound 1 exRemote).1 3 [exNormal] (by decide)).1,
   (c2_day_bound 1 exRemote).2.2.2 2 [] [] none (daysInv_initial 1),
   (c2_day_bound 1 exRemote).2.2.1 [] [] [] [] [] (daysInv_initial 1) rfl⟩

/-- Claim C3 (code bug): the spec demands that the fetch loop never spin
indefinitely on responses yielding no new distinct dates, but the code does:
against a remote whose single-day history repeats (`null` token, so the
request restarts from the first page), a run with `num_days = 2` exhausts
every fuel bound — `days_set` stays at one entry, `len(days_set) <= num_days`
stays true, and the per-record stopping rule can never fire. -/
theorem c3_no_progress_spins :
    ∀ fuel : Nat, load_items 2 c3Remote fuel = FetchOutcome.outOfFuel := by
  have aux : ∀ (fuel : Nat) (ds : List String) (acc : List ActivityItem)
      (tok : Option String), (ds = [] ∨ ds = ["2024-01-01"]) →
      loadItemsLoop 2 c3Remote fuel ds acc tok = FetchOutcome.outOfFuel := by
    intro fuel
    induction fuel with
    | zero => intro ds acc tok _; rfl
    | succ fuel ih =>
      intro ds acc tok hds
      rcases hds with rfl | rfl
      · rw [show loadItemsLoop 2 c3Remote (fuel + 1) [] acc tok
            = loadItemsLoop 2 c3Remote fuel ["2024-01-01"] (acc ++ [c3Item]) none from rfl]
        exact ih _ _ _ (Or.inr rfl)
      · rw [show loadItemsLoop 2 c3Remote (fuel + 1) ["2024-01-01"] acc tok
            = loadItemsLoop 2 c3Remote fuel ["2024-01-01"] (acc ++ [c3Item]) none from rfl]
        exact ih _ _ _ (Or.inr rfl)
  intro fuel
  exact aux fuel [] [] none (Or.inl rfl)

/-- Claim C4: with the weekly filter active, a record whose point value is
1000 is skipped without touching the day set, the output, or the stopping
decision, and no returned record of any successful fetch run has point value
1000. -/
theorem c4_weekly_filter (numDays : Nat) (remote : Option String → PageResp) :
    (∀ (daysSet : List String) (acc : List ActivityItem) (a : ActivityItem)
      (rest : List ActivityItem), a.xpReward = 1000 →
      processPage numDays daysSet acc (a :: rest) = processPage numDays daysSet acc rest) ∧
    (∀ (fuel : Nat) (res : List ActivityItem),
      load_items numDays remote fuel = FetchOutcome.ok res →
      ∀ a ∈ res, a.xpReward ≠ 1000) := by
  constructor
  · intro daysSet acc a rest h
    have hw : (FILTER_OUT_WEEKLIES && (a.xpReward == 1000)) = true := by
      simp [FILTER_OUT_WEEKLIES, h]
    simp only [processPage]
    rw [if_pos hw]
  · intro fuel res h a ha
    obtain ⟨pre, b, post, hq, hres, -, -⟩ :=
      loadItemsLoop_ok_spec numDays remote fuel [] [] res none (daysInv_initial _) h
    rw [List.nil_append] at hres
    subst hres
    have hmem : a ∈ qualifying (fetchedStream numDays remote fuel [] [] none) := by
      rw [hq]
      exact List.mem_append_left _ ha
    simp only [qualifying] at hmem
    have hpa := List.of_mem_filter hmem
    simpa [isWeekly, FILTER_OUT_WEEKLIES] using hpa

/-- Witness for C4: the weekly record `exWeekly` is skipped with no state
change, and the record returned by a concrete run is not a weekly. -/
theorem c4_weekly_filter_witness :
    processPage 1 [] [] [exWeekly, exNormal, exNext] =
      processPage 1 [] [] [exNormal, exNext] ∧
    exNormal.xpReward ≠ 1000 :=
  ⟨(c4_weekly_filter 1 exRemote).1 [] [] exWeekly [exNormal, exNext] (by decide),
   (c4_weekly_filter 1 exRemote).2 3 [exNormal] (by decide) exNormal (by decide)⟩

/-! ## Helper lemmas: ISO dates and truncation -/

theorem isIsoDateChars_length {l : List Char} (h : isIsoDateChars l = true) :
    l.length = 10 := by
  unfold isIsoDateChars at h
  split at h
  · simp
  · exact absurd h (by simp)

theorem isIsoDateChars_digit_or_dash {l : List Char} (h : isIsoDateChars l = true) :
    ∀ c ∈ l, c.isDigit = true ∨ c = '-' := by
  unfold isIsoDateChars at h
  split at h
  · rename_i y1 y2 y3 y4 s1 m1 m2 s2 d1 d2
    simp only [Bool.and_eq_true, beq_iff_eq] at h
    obtain ⟨⟨⟨⟨⟨⟨⟨⟨⟨h1, h2⟩, h3⟩, h4⟩, h5⟩, h6⟩, h7⟩, h8⟩, h9⟩, h10⟩ := h
    intro c hc
    simp only [List.mem_cons, List.not_mem_nil, or_false] at hc
    rcases hc with rfl | rfl | rfl | rfl | rfl | rfl | rfl | rfl | rfl | rfl
    exacts [Or.inl h1, Or.inl h2, Or.inl h3, Or.inl h4, Or.inr h5,
      Or.inl h6, Or.inl h7, Or.inr h8, Or.inl h9, Or.inl h10]
  · exact absurd h (by simp)

theorem isIsoDateChars_no_T {l : List Char} (h : isIsoDateChars l = true) :
    ∀ c ∈ l, ¬ c = 'T' := by
  intro c hc
  rcases isIsoDateChars_digit_or_dash h c hc with hd | hd
  · rintro rfl
    exact absurd hd (by decide)
  · rintro rfl
    exact absurd hd (by decide)

theorem takeWhile_append_of_no_T {d r : List Char} (hd : ∀ c ∈ d, ¬ c = 'T') :
    (d ++ 'T' :: r).takeWhile (fun c => c != 'T') = d := by
  induction d with
  | nil => simp
  | cons c cs ih =>
    have hc : (c != 'T') = true := by
      simpa [bne_iff_ne] using hd c (List.mem_cons_self c cs)
    simp only [List.cons_append, List.takeWhile_cons, hc, if_true]
    rw [ih (fun x hx => hd x (List.mem_cons_of_mem _ hx))]

/-! ## Claims C5-C7: the aggregator -/

/-- Claim C5: whenever the bucket set selected for averaging is empty — no
qualifying records at all, or a single bucket under the exclude-newest
policy — the aggregation core surfaces the `ZeroDivisionError` of the
unguarded `sum/len` division as an explicit error, and nothing (no NaN, no
zero average) reaches the renderer. -/
theorem c5_empty_selection_error (items : List ActivityItem)
    (buckets : List (String × Nat)) (includeToday : Bool)
    (hagg : aggregate items = Except.ok buckets)
    (hsel : xpSumsForAvg (buckets.map (fun p => p.2)) includeToday = []) :
    plot_items items includeToday =
      Except.error "ZeroDivisionError: division by zero" := by
  simp [plot_items, hagg, avgXp, hsel]

/-- Witness for C5: zero input records (either policy), and one bucket under
the exclude-newest policy, both abort with the division error. -/
theorem c5_empty_selection_error_witness :
    plot_items [] true = Except.error "ZeroDivisionError: division by zero" ∧
    plot_items c5OneItem false = Except.error "ZeroDivisionError: division by zero" :=
  ⟨c5_empty_selection_error [] [] true rfl rfl,
   c5_empty_selection_error c5OneItem [("2024-01-05", 40)] false rfl rfl⟩

/-- Claim C6: on any record satisfying the spec's ISO-8601 UTC-qualified
timestamp invariant, the date the aggregator obtains by full ISO parse of
`recordedAt` (modelled `fromisoformatDate`) is exactly the date the fetcher
and reporter obtain by truncating at the `'T'` separator (`truncDate`). -/
theorem c6_date_extraction_agree (s : String) (h : isUtcIsoTimestamp s) :
    fromisoformatDate s = some (truncDate s) := by
  obtain ⟨d, r, hdata, hiso, -⟩ := h
  have hlen : d.length = 10 := isIsoDateChars_length hiso
  have hnoT : ∀ c ∈ d, ¬ c = 'T' := isIsoDateChars_no_T hiso
  have htake : s.data.take 10 = d := by
    rw [hdata, ← hlen, List.take_left]
  have hdrop : s.data.drop 10 = 'T' :: r := by
    rw [hdata, ← hlen, List.drop_left]
  have htrunc : truncDate s = String.mk d := by
    unfold truncDate
    rw [hdata, takeWhile_append_of_no_T hnoT]
  rw [htrunc]
  simp only [fromisoformatDate, htake, hdrop, hiso, if_true]

/-- Witness for C6: both extraction methods yield `2024-01-01` on a concrete
UTC-offset timestamp. -/
theorem c6_date_extraction_agree_witness :
    fromisoformatDate "2024-01-01T12:34:56+00:00" =
      some (truncDate "2024-01-01T12:34:56+00:00") :=
  c6_date_extraction_agree "2024-01-01T12:34:56+00:00"
    ⟨"2024-01-01".data, "12:34:56+00:00".data, by decide, by decide,
      Or.inr ⟨"12:34:56".data, by decide⟩⟩

/-- Claim C7: with a non-empty selection, the include-newest average is the
arithmetic mean of all bucket totals and the exclude-newest average is the
mean of all but the chronologically last bucket; on records bucketed as
`[(2024-01-01,100), (2024-01-02,200), (2024-01-03,300)]` the exclude-newest
average is 150 and the include-newest average is 200. -/
theorem c7_average_policies :
    (∀ sums : List Nat, sums ≠ [] →
      avgXp sums true = Except.ok ((sums.sum : ℚ) / (sums.length : ℚ))) ∧
    (∀ sums : List Nat, sums.dropLast ≠ [] →
      avgXp sums false = Except.ok ((sums.dropLast.sum : ℚ) / (sums.dropLast.length : ℚ))) ∧
    plot_items c7Items false = Except.ok (c7Buckets, 150) ∧
    plot_items c7Items true = Except.ok (c7Buckets, 200) := by
  have hagg : aggregate c7Items = Except.ok c7Buckets := by rfl
  refine ⟨?_, ?_, ?_, ?_⟩
  · intro sums hne
    simp [avgXp, xpSumsForAvg, List.length_eq_zero, hne]
  · intro sums hne
    have hpos : 0 < sums.dropLast.length := List.length_pos.mpr hne
    rw [List.length_dropLast] at hpos
    simp [avgXp, xpSumsForAvg, List.length_eq_zero, hne]
    omega
  · have havg : avgXp (c7Buckets.map (fun p => p.2)) false = Except.ok 150 := by
      have h1 : c7Buckets.map (fun p => p.2) = [100, 200, 300] := rfl
      have h2 : xpSumsForAvg [100, 200, 300] false = [100, 200] := rfl
      rw [h1]
      simp [avgXp, h2]
      norm_num
    simp [plot_items, hagg, havg]
  · have havg : avgXp (c7Buckets.map (fun p => p.2)) true = Except.ok 200 := by
      have h1 : c7Buckets.map (fun p => p.2) = [100, 200, 300] := rfl
      have h2 : xpSumsForAvg [100, 200, 300] true = [100, 200, 300] := rfl
      rw [h1]
      simp [avgXp, h2]
      norm_num
    simp [plot_items, hagg, havg]

/-- Witness for C7: the two general mean equations instantiated on the
bucket totals `[100, 200, 300]`. -/
theorem c7_average_policies_witness :
    avgXp [100, 200, 300] true = Except.ok ((([100, 200, 300] : List Nat).sum : ℚ) /
      (([100, 200, 300] : List Nat).length : ℚ)) ∧
    avgXp [100, 200, 300] false =
      Except.ok ((([100, 200, 300] : List Nat).dropLast.sum : ℚ) /
        (([100, 200, 300] : List Nat).dropLast.length : ℚ)) :=
  ⟨c7_average_policies.1 [100, 200, 300] (by decide),
   c7_average_policies.2.1 [100, 200, 300] (by decide)⟩

/-! ## Helper lemmas: re-aggregation -/

theorem optionMapList_mem {α β : Type} {f : α → Option β} :
    ∀ {l : List α} {bs : List β}, optionMapList f l = some bs →
      ∀ b ∈ bs, ∃ a ∈ l, f a = some b := by
  intro l
  induction l with
  | nil =>
    intro bs h b hb
    simp only [optionMapList, Option.some.injEq] at h
    subst h
    cases hb
  | cons a l ih =>
    intro bs h b hb
    simp only [optionMapList] at h
    rcases hfa : f a with _ | b0 <;> rw [hfa] at h
    · simp at h
    · rcases hrec : optionMapList f l with _ | bs0 <;> rw [hrec] at h
      · simp at h
      · simp only [Option.some.injEq] at h
        subst h
        rcases List.mem_cons.mp hb with rfl | hb'
        · exact ⟨a, List.mem_cons_self a l, hfa⟩
        · obtain ⟨a', ha', hfa'⟩ := ih hrec b hb'
          exact ⟨a', List.mem_cons_of_mem a ha', hfa'⟩

theorem fromisoformatDate_reparse {s d : String} (h : fromisoformatDate s = some d) :
    fromisoformatDate d = some d := by
  simp only [fromisoformatDate] at h
  split_ifs at h with hc
  · have hd : d.data = s.data.take 10 := by
      split at h
      · simp only [Option.some.injEq] at h
        subst h
        rfl
      · simp only [Option.some.injEq] at h
        subst h
        rfl
      · exact absurd h (by simp)
    have hc' : isIsoDateChars d.data = true := by rw [hd]; exact hc
    have hlen : d.data.length = 10 := isIsoDateChars_length hc'
    have htake : d.data.take 10 = d.data := List.take_of_length_le (le_of_eq hlen)
    have hdrop : d.data.drop 10 = [] := List.drop_eq_nil_of_le (le_of_eq hlen)
    simp only [fromisoformatDate, htake, hdrop, hc', if_true]

theorem datedPairs_synthetic :
    ∀ {buckets : List (String × Nat)},
      (∀ p ∈ buckets, fromisoformatDate p.1 = some p.1) →
      datedPairs (syntheticItems buckets) = some buckets := by
  intro buckets
  induction buckets with
  | nil => intro _; rfl
  | cons p ps ih =>
    intro h
    have hp : fromisoformatDate p.1 = some p.1 := h p (List.mem_cons_self p ps)
    have hrec := ih (fun q hq => h q (List.mem_cons_of_mem p hq))
    simp only [syntheticItems, List.map_cons, datedPairs, optionMapList] at hrec ⊢
    rw [hp, hrec]
    simp

theorem totalFor_map_self {g : String → Nat} :
    ∀ {dates : List String}, dates.Nodup →
      ∀ d ∈ dates, totalFor (dates.map (fun x => (x, g x))) d = g d := by
  intro dates
  induction dates with
  | nil =>
    intro _ d hd
    cases hd
  | cons x xs ih =>
    intro hnd d hd
    have hx : x ∉ xs := (List.nodup_cons.mp hnd).1
    rcases List.mem_cons.mp hd with rfl | hd'
    · unfold totalFor
      simp only [List.map_cons, List.filter_cons]
      rw [if_pos (by simp)]
      have htail : (xs.map (fun y => (y, g y))).filter (fun p => decide (p.1 = d)) = [] := by
        rw [List.filter_eq_nil_iff]
        intro p hp
        simp only [List.mem_map] at hp
        obtain ⟨y, hy, rfl⟩ := hp
        simp only [decide_eq_true_eq]
        rintro rfl
        exact hx hy
      simp [htail]
    · have hxd : ¬ x = d := by
        rintro rfl
        exact hx hd'
      unfold totalFor
      simp only [List.map_cons, List.filter_cons]
      rw [if_neg (by simp [hxd])]
      exact ih (List.nodup_cons.mp hnd).2 d hd'

/-! ## Claim C10: idempotence of aggregation -/

/-- Claim C10: re-aggregating the aggregator's own `(date, total)` output,
with each pair read back as a single synthetic record dated on that day with
that point value, reproduces exactly the same buckets in the same ascending
date order. -/
theorem c10_aggregation_idempotent (items : List ActivityItem)
    (buckets : List (String × Nat)) (h : aggregate items = Except.ok buckets) :
    aggregate (syntheticItems buckets) = Except.ok buckets := by
  unfold aggregate at h
  rcases hdp : datedPairs items with _ | ps <;> rw [hdp] at h
  · exact absurd h (by simp)
  · simp only [Except.ok.injEq] at h
    have hb : buckets = (sortedStrings (ps.map (fun p => p.1)).dedup).map
        (fun d => (d, totalFor ps d)) := h.symm
    set dates := sortedStrings (ps.map (fun p => p.1)).dedup with hdates
    have hperm : dates.Perm (ps.map (fun p => p.1)).dedup := List.perm_insertionSort _ _
    have hnd : dates.Nodup := hperm.nodup_iff.mpr (List.nodup_dedup _)
    have hsorted : dates.Sorted strRel := List.sorted_insertionSort _ _
    have hkeys : buckets.map (fun p => p.1) = dates := by
      rw [hb, List.map_map]
      exact List.map_id _
    have hdmem : ∀ d ∈ dates, fromisoformatDate d = some d := by
      intro d hd
      have hd2 : d ∈ ps.map (fun p => p.1) :=
        (List.mem_dedup).mp (hperm.mem_iff.mp hd)
      obtain ⟨q, hq, rfl⟩ := List.mem_map.mp hd2
      obtain ⟨i, -, hfi⟩ := optionMapList_mem hdp q hq
      rcases hparse : fromisoformatDate i.recordedAt with _ | x <;> rw [hparse] at hfi
      · simp at hfi
      · simp only [Option.map_some', Option.some.injEq] at hfi
        have : q.1 = x := by rw [← hfi]
        rw [this]
        exact fromisoformatDate_reparse hparse
    have hreparse : ∀ p ∈ buckets, fromisoformatDate p.1 = some p.1 := by
      intro p hp
      have : p.1 ∈ buckets.map (fun q => q.1) := List.mem_map_of_mem _ hp
      rw [hkeys] at this
      exact hdmem _ this
    unfold aggregate
    rw [datedPairs_synthetic hreparse]
    simp only
    rw [hkeys, List.dedup_eq_self.mpr hnd,
      show sortedStrings dates = dates from List.Sorted.insertionSort_eq hsorted]
    rw [hb]
    congr 1
    apply List.map_congr_left
    intro d hd
    have := totalFor_map_self (g := fun x => totalFor ps x) hnd d hd
    rw [this]

/-- Witness for C10: re-aggregating the three-day buckets reproduces them. -/
theorem c10_aggregation_idempotent_witness :
    aggregate (syntheticItems c7Buckets) = Except.ok c7Buckets :=
  c10_aggregation_idempotent c7Items c7Buckets (by rfl)

/-! ## Helper lemmas: the reporter -/

theorem mem_inactiveIdsOn {items : List ActivityItem} {members : List Member}
    {d uid : String} :
    uid ∈ inactiveIdsOn items members d ↔
      uid ∈ allUserIds members ∧ uid ∉ activeOn items d := by
  unfold inactiveIdsOn
  rw [List.mem_filter]
  simp [List.contains, List.elem_iff]

/-! ## Claims C8-C9: the inactivity reporter -/

/-- Claim C8: the report associates every date present in the records — and
only those — with a block; a block's absentee labels are exactly the
nick-resolved roster members with no record that day, sorted
lexicographically; a date on which every roster member is active yields the
explicit none-inactive marker instead of an empty list; and on the concrete
roster `{A: Alice, B: Bob}` with activity on `2024-01-01` only by `A` and on
`2024-01-02` by both, the first date lists `["Bob"]` and the second yields
the marker. -/
theorem c8_report_blocks :
    (∀ (items : List ActivityItem) (members : List Member),
      (write_inactivity_report items members).map (fun p => p.1) = reportDates items ∧
      (∀ d, d ∈ reportDates items ↔ ∃ i ∈ items, recordDate i = d) ∧
      (∀ d, (blockFor items members d = ReportBlock.noneInactive ↔
          ∀ uid ∈ allUserIds members, uid ∈ activeOn items d) ∧
        (∀ ls, blockFor items members d = ReportBlock.absentees ls →
          ls.Sorted strRel ∧ ls ≠ [] ∧
          (∀ x, x ∈ ls ↔ ∃ uid, uid ∈ allUserIds members ∧ uid ∉ activeOn items d ∧
            (nickLookup members uid).getD uid = x)))) ∧
    write_inactivity_report c8Items c8Members =
      [("2024-01-01", ReportBlock.absentees ["Bob"]),
       ("2024-01-02", ReportBlock.noneInactive)] := by
  constructor
  · intro items members
    refine ⟨?_, ?_, ?_⟩
    · rw [write_inactivity_report, List.map_map]
      exact List.map_id _
    · intro d
      simp [reportDates, sortedStrings, List.mem_insertionSort, List.mem_dedup, List.mem_map]
    · intro d
      have hmemL : ∀ x, x ∈ sortedStrings ((inactiveIdsOn items members d).map
            (fun uid => (nickLookup members uid).getD uid)) ↔
          ∃ uid, uid ∈ allUserIds members ∧ uid ∉ activeOn items d ∧
            (nickLookup members uid).getD uid = x := by
        intro x
        rw [sortedStrings, List.mem_insertionSort, List.mem_map]
        constructor
        · rintro ⟨uid, huid, rfl⟩
          obtain ⟨h1, h2⟩ := mem_inactiveIdsOn.mp huid
          exact ⟨uid, h1, h2, rfl⟩
        · rintro ⟨uid, h1, h2, rfl⟩
          exact ⟨uid, mem_inactiveIdsOn.mpr ⟨h1, h2⟩, rfl⟩
      have hsorted : (sortedStrings ((inactiveIdsOn items members d).map
            (fun uid => (nickLookup members uid).getD uid))).Sorted strRel :=
        List.sorted_insertionSort strRel _
      rcases hL : sortedStrings ((inactiveIdsOn items members d).map
          (fun uid => (nickLookup members uid).getD uid)) with _ | ⟨x, xs⟩
      · have hblock : blockFor items members d = ReportBlock.noneInactive := by
          simp only [blockFor]
          rw [hL]
        constructor
        · rw [hblock]
          constructor
          · intro _ uid huid
            by_contra hact
            have : (nickLookup members uid).getD uid ∈
                sortedStrings ((inactiveIdsOn items members d).map
                  (fun u => (nickLookup members u).getD u)) :=
              (hmemL _).mpr ⟨uid, huid, hact, rfl⟩
            rw [hL] at this
            cases this
          · intro _
            rfl
        · intro ls hls
          rw [hblock] at hls
          cases hls
      · have hblock : blockFor items members d = ReportBlock.absentees (x :: xs) := by
          simp only [blockFor]
          rw [hL]
        constructor
        · rw [hblock]
          constructor
          · intro h0
            cases h0
          · intro hall
            exfalso
            have hx : x ∈ sortedStrings ((inactiveIdsOn items members d).map
                (fun u => (nickLookup members u).getD u)) := by
              rw [hL]
              exact List.mem_cons_self x xs
            obtain ⟨uid, h1, h2, -⟩ := (hmemL x).mp hx
            exact h2 (hall uid h1)
        · intro ls hls
          rw [hblock] at hls
          cases hls
          refine ⟨?_, by simp, ?_⟩
          · rw [← hL]
            exact hsorted
          · intro x0
            have hx0 := hmemL x0
            rw [hL] at hx0
            exact hx0
  · rfl

/-- Witness for C8: instantiated on the concrete roster and records — the
date-membership equivalence, the marker equivalence for the all-active day,
and the sortedness of the absentee list `["Bob"]`. -/
theorem c8_report_blocks_witness :
    ("2024-01-01" ∈ reportDates c8Items ↔ ∃ i ∈ c8Items, recordDate i = "2024-01-01") ∧
    (blockFor c8Items c8Members "2024-01-02" = ReportBlock.noneInactive ↔
      ∀ uid ∈ allUserIds c8Members, uid ∈ activeOn c8Items "2024-01-02") ∧
    (["Bob"] : List String).Sorted strRel :=
  ⟨(c8_report_blocks.1 c8Items c8Members).2.1 "2024-01-01",
   ((c8_report_blocks.1 c8Items c8Members).2.2 "2024-01-02").1,
   (((c8_report_blocks.1 c8Items c8Members).2.2 "2024-01-01").2 ["Bob"] (by decide)).1⟩

/-- Claim C9: every absentee listed on any date is a roster member — a
userId present in records but absent from the roster never enters any
absentee list — and every listed absentee resolves through the nick lookup,
so the fall-back-to-raw-identifier branch is never taken by the report. -/
theorem c9_absentees_from_roster (items : List ActivityItem) (members : List Member)
    (d : String) :
    (∀ uid ∈ inactiveIdsOn items members d,
      uid ∈ allUserIds members ∧
      ∃ n, nickLookup members uid = some n ∧ (nickLookup members uid).getD uid = n) ∧
    (∀ uid, uid ∉ allUserIds members → uid ∉ inactiveIdsOn items members d) := by
  constructor
  · intro uid huid
    have h1 := (mem_inactiveIdsOn.mp huid).1
    refine ⟨h1, ?_⟩
    have h1' : uid ∈ (members.map (fun m => m.userId)).dedup := h1
    have h2 : ∃ m ∈ members.reverse, (m.userId == uid) = true := by
      obtain ⟨m, hm, rfl⟩ := List.mem_map.mp (List.mem_dedup.mp h1')
      exact ⟨m, List.mem_reverse.mpr hm, by simp⟩
    have h3 : (members.reverse.find? (fun m => m.userId == uid)).isSome = true :=
      List.find?_isSome.mpr h2
    rcases hf : members.reverse.find? (fun m => m.userId == uid) with _ | m
    · rw [hf] at h3
      cases h3
    · exact ⟨m.nick, by simp [nickLookup, hf], by simp [nickLookup, hf]⟩
  · intro uid hall hmem
    exact hall (mem_inactiveIdsOn.mp hmem).1

/-- Witness for C9: on the concrete inputs, the absentee `B` of `2024-01-01`
is a roster member resolving to the nick `Bob`, and the non-roster id
`ghost` is in no absentee list. -/
theorem c9_absentees_from_roster_witness :
    ("B" ∈ allUserIds c8Members ∧
      ∃ n, nickLookup c8Members "B" = some n ∧ (nickLookup c8Members "B").getD "B" = n) ∧
    "ghost" ∉ inactiveIdsOn c8Items c8Members "2024-01-01" :=
  ⟨(c9_absentees_from_roster c8Items c8Members "2024-01-01").1 "B" (by decide),
   (c9_absentees_from_roster c8Items c8Members "2024-01-01").2 "ghost" (by decide)⟩
